import Mathlib

set_option maxRecDepth 8000

/-!
# Verification of the Sequential Tool-Calling Orchestrator

Shallow embedding of `backend/ai_generator.py` (class `AIGenerator`): the
round-limited control loop that alternates Model Client calls with tool
execution and terminates with a final answer string.

Modelling choices:
* The Model Client is scripted: a `generate_response` run consumes a list of
  `ModelResponse`s in order; an exhausted script models the client raising
  (`OrchError.apiError`), which the orchestrator does not catch.
* Python's `response.content[0].text` is modelled by `extractFirstBlockText`:
  it raises `indexError` on empty content and `attributeError` when the first
  block is a tool-use block (the anthropic SDK's `ToolUseBlock` has no `text`
  attribute).
* The tool manager is a function of the global invocation index (a Python
  tool manager is stateful), the tool name and the argument mapping; it can
  raise (`ExecOutcome.raise`) or return a value.  Values are strings or an
  opaque non-string Python value (`ToolValue.other`), since
  `_execute_tools_and_update_messages` checks `isinstance(tool_result, str)`.
* `LoopState` carries the conversation plus instrumentation: the remaining
  script, one `Bool` per Model Client call recording whether the tool catalog
  was offered (`if tools:` truthiness), the ordered log of tool-executor
  invocations, and the number of tool rounds entered.
-/

/-- A content block of a model turn: a text block or a tool-use block
(identifier, tool name, argument mapping). -/
inductive ContentBlock where
  | text (s : String)
  | toolUse (id : String) (name : String) (input : List (String × String))
deriving Repr, DecidableEq

/-- A scripted Model Client response: a stop reason string (the code compares
it with `"tool_use"`) and a list of content blocks. -/
structure ModelResponse where
  stop_reason : String
  content : List ContentBlock
deriving Repr, DecidableEq

/-- A value returned by `tool_manager.execute_tool`: a Python string, or any
non-string Python value (opaque, tagged). -/
inductive ToolValue where
  | str (s : String)
  | other (tag : Nat)
deriving Repr, DecidableEq

/-- Outcome of one tool-executor invocation: an exception or a returned value. -/
inductive ExecOutcome where
  | raise (msg : String)
  | ret (v : ToolValue)
deriving Repr, DecidableEq

/-- A tool executor: given the number of previously made invocations (so a
stateful manager can answer differently each time), the tool name and the
argument mapping, either raises or returns a value. -/
def Executor : Type := Nat → String → List (String × String) → ExecOutcome

/-- A `tool_result` entry packed into the user turn that follows a tool round. -/
structure ToolResultBlock where
  tool_use_id : String
  content : ToolValue
deriving Repr, DecidableEq

/-- Content of a conversation turn: plain text (the initial query), the
assistant's content blocks, or a list of tool results. -/
inductive MessageContent where
  | text (s : String)
  | blocks (bs : List ContentBlock)
  | toolResults (rs : List ToolResultBlock)
deriving Repr, DecidableEq

/-- One conversation turn: role (`"user"` or `"assistant"`) and content. -/
structure Message where
  role : String
  content : MessageContent
deriving Repr, DecidableEq

/-- Record of one tool-executor invocation: the tool name and arguments passed. -/
structure ToolCallRec where
  name : String
  input : List (String × String)
deriving Repr, DecidableEq

/-- Errors the orchestrator can propagate to its caller: a Model Client
(API) exception, and the `IndexError` / `AttributeError` raised by
`response.content[0].text` on a turn whose first block is absent or not a
text block. -/
inductive OrchError where
  | apiError
  | indexError
  | attributeError
deriving Repr, DecidableEq

/-- Result of the per-round tool-processing loop: collected results, or
failure (an exception was raised or a "not found" marker was detected). -/
inductive RoundOutcome where
  | ok (results : List ToolResultBlock)
  | failed
deriving Repr, DecidableEq

/-- Orchestration state: conversation messages, the remaining scripted Model
Client responses, and instrumentation (one flag per Model Client call telling
whether the tool catalog was offered, the ordered tool-invocation log, and the
number of tool rounds entered). -/
structure LoopState where
  messages : List Message
  script : List ModelResponse
  modelCalls : List Bool
  toolCalls : List ToolCallRec
  toolRounds : Nat
deriving Repr, DecidableEq

/-- Does a list of characters contain `pat` as a contiguous sublist? -/
def containsSubList (pat : List Char) : List Char → Bool
  | [] => pat.isEmpty
  | c :: rest => pat.isPrefixOf (c :: rest) || containsSubList pat rest

/-- Python's `"not found" in s.lower()`. -/
def hasNotFoundMarker (s : String) : Bool :=
  containsSubList ("not found".data) (s.data.map Char.toLower)

/-- The check guarding line 276 of `ai_generator.py`:
`isinstance(tool_result, str) and "not found" in tool_result.lower()`. -/
def isNotFoundFailure : ToolValue → Bool
  | ToolValue.str s => hasNotFoundMarker s
  | ToolValue.other _ => false

/-- Python truthiness of the `tools` argument (`if tools:`): `None` and the
empty list are falsy. -/
def toolsTruthy : Option (List String) → Bool
  | some (_ :: _) => true
  | _ => false

/-- `AIGenerator.SYSTEM_PROMPT` (static system prompt). -/
def SYSTEM_PROMPT : String :=
  " You are an AI assistant specialized in course materials and educational content with access to comprehensive search and outline tools for course information."

/-- `AIGenerator._initialize_conversation`: the conversation starts with the
user query as its sole turn (history is handled in the system content). -/
def initialize_conversation (query : String)
    (conversation_history : Option String) : List Message :=
  let _ := conversation_history
  [({ role := "user", content := MessageContent.text query } : Message)]

/-- `AIGenerator._build_system_content`: static prompt, round-budget guidance
interpolated with `max_rounds`, then the optional prior conversation. -/
def build_system_content (conversation_history : Option String)
    (max_rounds : Nat) : String :=
  let base_content := SYSTEM_PROMPT
  let round_guidance := "\nTool Round Limits: You have up to " ++ toString max_rounds ++ " opportunities to use tools in this conversation. Use them strategically to gather the most relevant information."
  match conversation_history with
  | some h => base_content ++ round_guidance ++ "\n\nPrevious conversation:\n" ++ h
  | none => base_content ++ round_guidance

/-- `response.content[0].text`: the text of the first content block;
`IndexError` when there is none, `AttributeError` when the first block is a
tool-use block. -/
def extractFirstBlockText : List ContentBlock → Except OrchError String
  | [] => Except.error OrchError.indexError
  | ContentBlock.text s :: _ => Except.ok s
  | ContentBlock.toolUse _ _ _ :: _ => Except.error OrchError.attributeError

/-- The text blocks of a turn's content, in order (`_handle_tool_failure`'s
`text_content` list). -/
def textBlocks (blocks : List ContentBlock) : List String :=
  blocks.filterMap fun b => match b with
    | ContentBlock.text s => some s
    | _ => none

/-- The fixed apologetic fallback message of `_handle_tool_failure`. -/
def FALLBACK_MESSAGE : String :=
  "I encountered an issue accessing the course materials. Please try rephrasing your question."

/-- `AIGenerator._handle_tool_failure`: join the text blocks of the response
with spaces, or the fixed fallback message when there are none. -/
def handle_tool_failure (response : ModelResponse) : String :=
  let text_content := textBlocks response.content
  if text_content.isEmpty then FALLBACK_MESSAGE
  else String.intercalate " " text_content

/-- `AIGenerator._make_claude_api_call`, over the scripted client: records
whether the tool catalog was offered (`if tools:`), then returns the next
scripted response, or raises when the script is exhausted. -/
def make_claude_api_call (st : LoopState) (tools : Option (List String)) :
    Except OrchError ModelResponse × LoopState :=
  let st1 := { st with modelCalls := st.modelCalls ++ [toolsTruthy tools] }
  match st1.script with
  | [] => (Except.error OrchError.apiError, st1)
  | r :: rest => (Except.ok r, { st1 with script := rest })

/-- The `for content_block in response.content` loop of
`_execute_tools_and_update_messages`: skip non-tool-use blocks; for each
tool-use block invoke the executor (the invocation index is the length of the
log so far); an exception or a string result containing the case-insensitive
"not found" marker aborts with `failed` (partial results in `acc` are
discarded); otherwise the result is appended. -/
def processBlocks (tool_manager : Executor) (blocks : List ContentBlock)
    (acc : List ToolResultBlock) (log : List ToolCallRec) :
    RoundOutcome × List ToolCallRec :=
  match blocks with
  | [] => (RoundOutcome.ok acc, log)
  | ContentBlock.text _ :: rest => processBlocks tool_manager rest acc log
  | ContentBlock.toolUse id name input :: rest =>
      let callRec : ToolCallRec := ⟨name, input⟩
      match tool_manager log.length name input with
      | ExecOutcome.raise _ => (RoundOutcome.failed, log ++ [callRec])
      | ExecOutcome.ret v =>
          if isNotFoundFailure v then (RoundOutcome.failed, log ++ [callRec])
          else processBlocks tool_manager rest
            (acc ++ [({ tool_use_id := id, content := v } : ToolResultBlock)])
            (log ++ [callRec])

/-- `AIGenerator._execute_tools_and_update_messages`: append the assistant
turn, execute the tool-use blocks in order, and on success append the
collected results as a single user turn (when nonempty).  Returns the success
flag and the updated state. -/
def execute_tools_and_update_messages (tool_manager : Executor)
    (response : ModelResponse) (st : LoopState) : Bool × LoopState :=
  let st1 := { st with
    messages := st.messages ++
      [({ role := "assistant", content := MessageContent.blocks response.content } : Message)] }
  match processBlocks tool_manager response.content [] st1.toolCalls with
  | (RoundOutcome.failed, log2) => (false, { st1 with toolCalls := log2 })
  | (RoundOutcome.ok results, log2) =>
      let st2 := { st1 with toolCalls := log2 }
      if results.isEmpty then (true, st2)
      else (true, { st2 with
        messages := st2.messages ++
          [({ role := "user", content := MessageContent.toolResults results } : Message)] })

/-- `AIGenerator._execute_sequential_rounds`: the `while current_round <
max_rounds` loop, embedded by recursion on the remaining rounds
(`remaining = max_rounds - current_round`).  Each iteration makes one Model
Client call (offering `tools` as given); a non-`"tool_use"` stop reason or a
missing tool manager terminates with `content[0].text`; a failed tool round
terminates with `_handle_tool_failure`; after the budget one final call is
made with `tools=None`. -/
def execute_sequential_rounds (system_content : String)
    (tools : Option (List String)) (tool_manager : Option Executor)
    (remaining : Nat) (st : LoopState) :
    Except OrchError String × LoopState :=
  let _ := system_content
  match remaining with
  | 0 =>
      let call := make_claude_api_call st none
      match call.1 with
      | Except.error e => (Except.error e, call.2)
      | Except.ok final_response => (extractFirstBlockText final_response.content, call.2)
  | m + 1 =>
      let call := make_claude_api_call st tools
      match call.1 with
      | Except.error e => (Except.error e, call.2)
      | Except.ok response =>
          if response.stop_reason ≠ "tool_use" then
            (extractFirstBlockText response.content, call.2)
          else
            match tool_manager with
            | none => (extractFirstBlockText response.content, call.2)
            | some manager =>
                let stR := { call.2 with toolRounds := call.2.toolRounds + 1 }
                let round := execute_tools_and_update_messages manager response stR
                if round.1 then
                  execute_sequential_rounds system_content tools tool_manager m round.2
                else
                  (Except.ok (handle_tool_failure response), round.2)

/-- `AIGenerator.generate_response`: initialize the conversation and system
content, then run the sequential rounds over the scripted Model Client. -/
def generate_response (query : String) (conversation_history : Option String)
    (tools : Option (List String)) (tool_manager : Option Executor)
    (max_rounds : Nat) (script : List ModelResponse) :
    Except OrchError String × LoopState :=
  let messages := initialize_conversation query conversation_history
  let system_content := build_system_content conversation_history max_rounds
  execute_sequential_rounds system_content tools tool_manager max_rounds
    { messages := messages, script := script, modelCalls := [], toolCalls := [],
      toolRounds := 0 }

/-! ## Statement vocabulary

Definitions used to state properties of the embedded orchestrator: the
tool-invocation blocks of an assistant turn, and predicates describing how the
tool executor behaves on them. -/

/-- A tool-use block's data: identifier, tool name, argument mapping. -/
structure Invocation where
  id : String
  name : String
  input : List (String × String)
deriving Repr, DecidableEq

/-- The tool-use blocks of a turn's content, in emission order. -/
def toolInvocations (blocks : List ContentBlock) : List Invocation :=
  blocks.filterMap fun b => match b with
    | ContentBlock.toolUse id name input =>
        some { id := id, name := name, input := input }
    | _ => none

/-- The invocation-log record produced by invoking an invocation's tool. -/
def invRec (inv : Invocation) : ToolCallRec := { name := inv.name, input := inv.input }

/-- Does an executor outcome abort the round (an exception, or a string result
carrying the "not found" marker)? -/
def failsRound : ExecOutcome → Bool
  | ExecOutcome.raise _ => true
  | ExecOutcome.ret v => isNotFoundFailure v

/-- The value of a non-raising outcome (junk on `raise`). -/
def retValue : ExecOutcome → ToolValue
  | ExecOutcome.ret v => v
  | ExecOutcome.raise _ => ToolValue.str ""

/-- The tool results the executor produces for a list of invocations starting
at global invocation index `base`, in order. -/
def packResults (tool_manager : Executor) (base : Nat) :
    List Invocation → List ToolResultBlock
  | [] => []
  | inv :: rest =>
      { tool_use_id := inv.id, content := retValue (tool_manager base inv.name inv.input) }
        :: packResults tool_manager (base + 1) rest

/-- Every invocation in the list, executed starting at index `base`, neither
raises nor yields a marker string. -/
def allSucceed (tool_manager : Executor) (base : Nat) : List Invocation → Bool
  | [] => true
  | inv :: rest =>
      !failsRound (tool_manager base inv.name inv.input) &&
        allSucceed tool_manager (base + 1) rest

/-- The `j`-th invocation (0-based) is the first whose execution aborts the
round: all earlier ones succeed and the `j`-th raises or yields a marker
string. -/
def failsFirstAt (tool_manager : Executor) (base : Nat) :
    List Invocation → Nat → Bool
  | [], _ => false
  | inv :: _, 0 => failsRound (tool_manager base inv.name inv.input)
  | inv :: rest, j + 1 =>
      !failsRound (tool_manager base inv.name inv.input) &&
        failsFirstAt tool_manager (base + 1) rest j

/-! ### Concrete executors, responses and states used in witnesses,
and the round-entry state abbreviation -/

/-- The state after an in-loop `"tool_use"` Model Client call, as the round
is entered: the call recorded, the script advanced and the round counter
incremented. -/
def advanceState (st : LoopState) (tools : Option (List String))
    (rest : List ModelResponse) : LoopState :=
  { st with modelCalls := st.modelCalls ++ [toolsTruthy tools], script := rest, toolRounds := st.toolRounds + 1 }

def sampleExecutor : Executor := fun _ _ _ => ExecOutcome.ret (ToolValue.str "ok result")

def sampleResponse : ModelResponse :=
  ⟨"tool_use", [ContentBlock.toolUse "t1" "search" [("query", "x")],
                ContentBlock.toolUse "t2" "outline" []]⟩

def sampleState : LoopState := ⟨[], [], [], [], 0⟩

def sampleRoundResult : LoopState :=
  { messages :=
      [({ role := "assistant", content := MessageContent.blocks sampleResponse.content } : Message),
       ({ role := "user",
          content := MessageContent.toolResults
            [⟨"t1", ToolValue.str "ok result"⟩, ⟨"t2", ToolValue.str "ok result"⟩] } : Message)],
    script := [], modelCalls := [],
    toolCalls := [⟨"search", [("query", "x")]⟩, ⟨"outline", []⟩], toolRounds := 0 }

def raisingExecutor : Executor := fun _ _ _ => ExecOutcome.raise "boom"

def c2wResponse : ModelResponse :=
  ⟨"tool_use", [ContentBlock.text "Checking the course",
                ContentBlock.toolUse "t1" "search" []]⟩

def c2wState : LoopState := ⟨[], [c2wResponse], [], [], 0⟩

def c9wExecutor : Executor := fun n _ _ =>
  if n = 0 then ExecOutcome.ret (ToolValue.str "first ok")
  else ExecOutcome.ret (ToolValue.str "Course not found")

def c9wResponse : ModelResponse :=
  ⟨"tool_use", [ContentBlock.toolUse "t1" "search" [],
                ContentBlock.toolUse "t2" "outline" []]⟩

def c9wState : LoopState := ⟨[], [c9wResponse], [], [], 0⟩

def otherExecutor : Executor := fun _ _ _ => ExecOutcome.ret (ToolValue.other 7)

def c6wTool : ModelResponse :=
  ⟨"tool_use", [ContentBlock.toolUse "t1" "search" [("query", "x")]]⟩

def c6wFinal : ModelResponse := ⟨"end_turn", [ContentBlock.text "Final"]⟩

theorem toolInvocations_nil : toolInvocations [] = [] := rfl

theorem toolInvocations_text (s : String) (rest : List ContentBlock) :
    toolInvocations (ContentBlock.text s :: rest) = toolInvocations rest := rfl

theorem toolInvocations_toolUse (id name : String) (input : List (String × String))
    (rest : List ContentBlock) :
    toolInvocations (ContentBlock.toolUse id name input :: rest) =
      { id := id, name := name, input := input } :: toolInvocations rest := rfl

/-- When every invocation of the round succeeds, `processBlocks` collects all
results in order and logs every invocation in order. -/
theorem processBlocks_ok_of_allSucceed (tool_manager : Executor) :
    ∀ (blocks : List ContentBlock) (acc : List ToolResultBlock) (log : List ToolCallRec),
    allSucceed tool_manager log.length (toolInvocations blocks) = true →
    processBlocks tool_manager blocks acc log =
      (RoundOutcome.ok (acc ++ packResults tool_manager log.length (toolInvocations blocks)),
       log ++ (toolInvocations blocks).map invRec) := by
  intro blocks
  induction blocks with
  | nil => intro acc log _; simp [processBlocks, toolInvocations_nil, packResults]
  | cons b rest ih =>
    intro acc log h
    cases b with
    | text s =>
        rw [toolInvocations_text] at h ⊢
        simpa [processBlocks] using ih acc log h
    | toolUse id name input =>
        rw [toolInvocations_toolUse] at h ⊢
        rw [allSucceed] at h
        simp only [Bool.and_eq_true, Bool.not_eq_true'] at h
        obtain ⟨hfail, hrest⟩ := h
        cases hout : tool_manager log.length name input with
        | raise msg => rw [hout] at hfail; simp [failsRound] at hfail
        | ret v =>
            rw [hout] at hfail
            rw [failsRound] at hfail
            rw [processBlocks, hout]
            simp only [hfail, if_false]
            have hlen : (log ++ [({ name := name, input := input } : ToolCallRec)]).length
                = log.length + 1 := by simp
            rw [ih _ _ (by rw [hlen]; exact hrest)]
            simp [packResults, hout, retValue, invRec, hlen]

/-- If `processBlocks` returns `ok`, every invocation of the round succeeded. -/
theorem allSucceed_of_processBlocks_ok (tool_manager : Executor) :
    ∀ (blocks : List ContentBlock) (acc : List ToolResultBlock) (log : List ToolCallRec)
      (res : List ToolResultBlock) (log2 : List ToolCallRec),
    processBlocks tool_manager blocks acc log = (RoundOutcome.ok res, log2) →
    allSucceed tool_manager log.length (toolInvocations blocks) = true := by
  intro blocks
  induction blocks with
  | nil => intro acc log res log2 _; simp [toolInvocations_nil, allSucceed]
  | cons b rest ih =>
    intro acc log res log2 h
    cases b with
    | text s =>
        rw [toolInvocations_text]
        rw [processBlocks] at h
        exact ih _ _ _ _ h
    | toolUse id name input =>
        rw [toolInvocations_toolUse, allSucceed]
        rw [processBlocks] at h
        split at h
        · exact absurd h (by simp)
        · rename_i v hout
          split at h
          · exact absurd h (by simp)
          · rename_i hm
            have := ih _ _ _ _ h
            simp only [List.length_append, List.length_cons, List.length_nil] at this
            simp [failsRound, hout, hm, this]

/-- If the first failing invocation is the `j`-th, `processBlocks` fails and
the log is extended by exactly the first `j + 1` invocations, in order. -/
theorem processBlocks_failed_of_failsFirstAt (tool_manager : Executor) :
    ∀ (blocks : List ContentBlock) (j : Nat) (acc : List ToolResultBlock)
      (log : List ToolCallRec),
    failsFirstAt tool_manager log.length (toolInvocations blocks) j = true →
    processBlocks tool_manager blocks acc log =
      (RoundOutcome.failed,
       log ++ ((toolInvocations blocks).take (j + 1)).map invRec) := by
  intro blocks
  induction blocks with
  | nil => intro j acc log h; rw [toolInvocations_nil] at h; simp [failsFirstAt] at h
  | cons b rest ih =>
    intro j acc log h
    cases b with
    | text s =>
        rw [toolInvocations_text] at h ⊢
        rw [processBlocks]
        exact ih j acc log h
    | toolUse id name input =>
        rw [toolInvocations_toolUse] at h ⊢
        cases j with
        | zero =>
            rw [failsFirstAt] at h
            rw [processBlocks]
            cases hout : tool_manager log.length name input with
            | raise msg => simp [invRec]
            | ret v =>
                rw [hout] at h
                rw [failsRound] at h
                simp [h, invRec]
        | succ j' =>
            rw [failsFirstAt] at h
            simp only [Bool.and_eq_true, Bool.not_eq_true'] at h
            obtain ⟨hfail, hrest⟩ := h
            cases hout : tool_manager log.length name input with
            | raise msg => rw [hout] at hfail; simp [failsRound] at hfail
            | ret v =>
                rw [hout] at hfail
                rw [failsRound] at hfail
                rw [processBlocks, hout]
                simp only [hfail, if_false]
                have hlen : (log ++ [({ name := name, input := input } : ToolCallRec)]).length
                    = log.length + 1 := by simp
                rw [ih j' _ _ (by rw [hlen]; exact hrest)]
                simp [invRec, List.take]

/-- If `processBlocks` fails, some invocation was the first failing one. -/
theorem exists_failsFirstAt_of_processBlocks_failed (tool_manager : Executor) :
    ∀ (blocks : List ContentBlock) (acc : List ToolResultBlock)
      (log log2 : List ToolCallRec),
    processBlocks tool_manager blocks acc log = (RoundOutcome.failed, log2) →
    ∃ j, failsFirstAt tool_manager log.length (toolInvocations blocks) j = true := by
  intro blocks
  induction blocks with
  | nil => intro acc log log2 h; simp [processBlocks] at h
  | cons b rest ih =>
    intro acc log log2 h
    cases b with
    | text s =>
        rw [toolInvocations_text]
        rw [processBlocks] at h
        exact ih _ _ _ h
    | toolUse id name input =>
        rw [toolInvocations_toolUse]
        rw [processBlocks] at h
        split at h
        · rename_i msg hout
          refine ⟨0, ?_⟩
          rw [failsFirstAt, hout, failsRound]
        · rename_i v hout
          split at h
          · rename_i hm
            exact ⟨0, by rw [failsFirstAt, hout, failsRound]; exact hm⟩
          · rename_i hm
            obtain ⟨j, hj⟩ := ih _ _ _ h
            refine ⟨j + 1, ?_⟩
            rw [failsFirstAt]
            simp only [List.length_append, List.length_cons, List.length_nil] at hj
            simp [failsRound, hout, hm, hj]

/-- An outcome that aborts a round is an exception or a marker-carrying
string result: a non-string result never aborts a round. -/
theorem failsRound_cases (o : ExecOutcome) (h : failsRound o = true) :
    (∃ msg, o = ExecOutcome.raise msg) ∨
    (∃ s, o = ExecOutcome.ret (ToolValue.str s) ∧ hasNotFoundMarker s = true) := by
  cases o with
  | raise msg => exact Or.inl ⟨msg, rfl⟩
  | ret v =>
      cases v with
      | str s => exact Or.inr ⟨s, rfl, by simpa [failsRound, isNotFoundFailure] using h⟩
      | other t => simp [failsRound, isNotFoundFailure] at h

/-- The first failing index lies within the invocation list, all earlier
invocations succeed, and the invocation there fails. -/
theorem failsFirstAt_spec (tool_manager : Executor) :
    ∀ (invs : List Invocation) (base j : Nat),
    failsFirstAt tool_manager base invs j = true →
    ∃ hj : j < invs.length,
      failsRound (tool_manager (base + j) (invs.get ⟨j, hj⟩).name
        (invs.get ⟨j, hj⟩).input) = true ∧
      ∀ i, ∀ hi : i < invs.length, i < j →
        failsRound (tool_manager (base + i) (invs.get ⟨i, hi⟩).name
          (invs.get ⟨i, hi⟩).input) = false := by
  intro invs
  induction invs with
  | nil => intro base j h; simp [failsFirstAt] at h
  | cons inv rest ih =>
    intro base j h
    cases j with
    | zero =>
        rw [failsFirstAt] at h
        refine ⟨Nat.succ_pos _, h, ?_⟩
        intro i hi hij; omega
    | succ j' =>
        rw [failsFirstAt] at h
        simp only [Bool.and_eq_true, Bool.not_eq_true'] at h
        obtain ⟨hok, hrest⟩ := h
        obtain ⟨hj', hfail, hearlier⟩ := ih (base + 1) j' hrest
        refine ⟨Nat.succ_lt_succ hj', ?_, ?_⟩
        · rw [show base + (j' + 1) = base + 1 + j' by omega]
          exact hfail
        · intro i hi hij
          cases i with
          | zero => exact hok
          | succ i' =>
              have hi' : i' < rest.length := Nat.lt_of_succ_lt_succ hi
              have he := hearlier i' hi' (Nat.lt_of_succ_lt_succ hij)
              rw [show base + (i' + 1) = base + 1 + i' by omega]
              exact he

/-- An executor that never fails (never raises, never returns a marker
string) succeeds on every invocation list at every base index. -/
theorem allSucceed_of_global (tool_manager : Executor)
    (h : ∀ n name input, failsRound (tool_manager n name input) = false) :
    ∀ (invs : List Invocation) (base : Nat), allSucceed tool_manager base invs = true := by
  intro invs
  induction invs with
  | nil => intro base; rfl
  | cons inv rest ih => intro base; simp [allSucceed, h, ih]

theorem packResults_length (tool_manager : Executor) :
    ∀ (invs : List Invocation) (base : Nat),
    (packResults tool_manager base invs).length = invs.length := by
  intro invs
  induction invs with
  | nil => intro base; rfl
  | cons inv rest ih => intro base; simp [packResults, ih]

/-- One Model Client call on a nonempty script: the call is recorded (with
the catalog-offered flag) and the head response is returned. -/
theorem make_claude_api_call_cons (st : LoopState) (tools : Option (List String))
    (r : ModelResponse) (rest : List ModelResponse) (h : st.script = r :: rest) :
    make_claude_api_call st tools =
      (Except.ok r,
       { st with modelCalls := st.modelCalls ++ [toolsTruthy tools], script := rest }) := by
  obtain ⟨msgs, sc, mc, tc, tr⟩ := st
  simp only at h
  cases h
  rfl

/-- One Model Client call on an exhausted script raises. -/
theorem make_claude_api_call_nil (st : LoopState) (tools : Option (List String))
    (h : st.script = []) :
    make_claude_api_call st tools =
      (Except.error OrchError.apiError,
       { st with modelCalls := st.modelCalls ++ [toolsTruthy tools] }) := by
  obtain ⟨msgs, sc, mc, tc, tr⟩ := st
  simp only at h
  cases h
  rfl

/-- The post-budget final call: made with `tools=None`, its first block's
text returned. -/
theorem rounds_zero (system_content : String) (tools : Option (List String))
    (tool_manager : Option Executor) (st : LoopState) (r : ModelResponse)
    (rest : List ModelResponse) (h : st.script = r :: rest) :
    execute_sequential_rounds system_content tools tool_manager 0 st =
      (extractFirstBlockText r.content,
       { st with modelCalls := st.modelCalls ++ [false], script := rest }) := by
  rw [execute_sequential_rounds, make_claude_api_call_cons st none r rest h]
  rfl

/-- An in-loop call whose response has a non-`"tool_use"` stop reason
terminates with that response's first block's text. -/
theorem rounds_succ_terminal (system_content : String) (tools : Option (List String))
    (tool_manager : Option Executor) (m : Nat) (st : LoopState) (r : ModelResponse)
    (rest : List ModelResponse) (h : st.script = r :: rest)
    (hstop : r.stop_reason ≠ "tool_use") :
    execute_sequential_rounds system_content tools tool_manager (m + 1) st =
      (extractFirstBlockText r.content,
       { st with modelCalls := st.modelCalls ++ [toolsTruthy tools], script := rest }) := by
  rw [execute_sequential_rounds, make_claude_api_call_cons st tools r rest h]
  simp [hstop]

/-- An in-loop call answered with `"tool_use"` but with no tool manager
supplied terminates with that response's first block's text. -/
theorem rounds_succ_no_manager (system_content : String) (tools : Option (List String))
    (m : Nat) (st : LoopState) (r : ModelResponse)
    (rest : List ModelResponse) (h : st.script = r :: rest)
    (hstop : r.stop_reason = "tool_use") :
    execute_sequential_rounds system_content tools none (m + 1) st =
      (extractFirstBlockText r.content,
       { st with modelCalls := st.modelCalls ++ [toolsTruthy tools], script := rest }) := by
  rw [execute_sequential_rounds, make_claude_api_call_cons st tools r rest h]
  simp [hstop]

/-- An in-loop call answered with `"tool_use"`, with a tool manager present,
whose tool round fails: the loop terminates at once with
`_handle_tool_failure`. -/
theorem rounds_succ_tool_use_fail (system_content : String)
    (tools : Option (List String)) (manager : Executor) (m : Nat) (st st2 : LoopState)
    (r : ModelResponse) (rest : List ModelResponse) (h : st.script = r :: rest)
    (hstop : r.stop_reason = "tool_use")
    (hfail : execute_tools_and_update_messages manager r (advanceState st tools rest)
      = (false, st2)) :
    execute_sequential_rounds system_content tools (some manager) (m + 1) st =
      (Except.ok (handle_tool_failure r), st2) := by
  rw [execute_sequential_rounds, make_claude_api_call_cons st tools r rest h]
  simp only [hstop, advanceState] at hfail ⊢
  simp [hfail]

/-- An in-loop call answered with `"tool_use"`, with a tool manager present,
whose tool round succeeds: the loop continues on the updated state. -/
theorem rounds_succ_tool_use_ok (system_content : String)
    (tools : Option (List String)) (manager : Executor) (m : Nat) (st st2 : LoopState)
    (r : ModelResponse) (rest : List ModelResponse) (h : st.script = r :: rest)
    (hstop : r.stop_reason = "tool_use")
    (hok : execute_tools_and_update_messages manager r (advanceState st tools rest)
      = (true, st2)) :
    execute_sequential_rounds system_content tools (some manager) (m + 1) st =
      execute_sequential_rounds system_content tools (some manager) m st2 := by
  rw [execute_sequential_rounds, make_claude_api_call_cons st tools r rest h]
  simp only [hstop, advanceState] at hok ⊢
  simp [hok]

/-- The post-budget final call on an exhausted script propagates the Model
Client failure. -/
theorem rounds_zero_nil (system_content : String) (tools : Option (List String))
    (tool_manager : Option Executor) (st : LoopState) (h : st.script = []) :
    execute_sequential_rounds system_content tools tool_manager 0 st =
      (Except.error OrchError.apiError,
       { st with modelCalls := st.modelCalls ++ [false] }) := by
  rw [execute_sequential_rounds, make_claude_api_call_nil st none h]
  rfl

/-- An in-loop call on an exhausted script propagates the Model Client
failure. -/
theorem rounds_succ_nil (system_content : String) (tools : Option (List String))
    (tool_manager : Option Executor) (m : Nat) (st : LoopState) (h : st.script = []) :
    execute_sequential_rounds system_content tools tool_manager (m + 1) st =
      (Except.error OrchError.apiError,
       { st with modelCalls := st.modelCalls ++ [toolsTruthy tools] }) := by
  rw [execute_sequential_rounds, make_claude_api_call_nil st tools h]

/-- A tool round touches only the conversation and the invocation log: the
Model Client call record, the round counter and the remaining script are
unchanged. -/
theorem execute_tools_state_fields (manager : Executor) (r : ModelResponse)
    (s : LoopState) :
    ((execute_tools_and_update_messages manager r s).2).modelCalls = s.modelCalls ∧
    ((execute_tools_and_update_messages manager r s).2).toolRounds = s.toolRounds ∧
    ((execute_tools_and_update_messages manager r s).2).script = s.script := by
  rw [execute_tools_and_update_messages]
  split
  · exact ⟨rfl, rfl, rfl⟩
  · split
    · exact ⟨rfl, rfl, rfl⟩
    · exact ⟨rfl, rfl, rfl⟩

/-- Loop bound: from any state, the loop with `remaining` rounds left makes
at most `remaining + 1` further Model Client calls and enters at most
`remaining` further tool rounds. -/
theorem rounds_resource_bound (remaining : Nat) :
    ∀ (system_content : String) (tools : Option (List String))
      (tool_manager : Option Executor) (st : LoopState),
    ((execute_sequential_rounds system_content tools tool_manager remaining st).2).modelCalls.length
        ≤ st.modelCalls.length + (remaining + 1) ∧
    ((execute_sequential_rounds system_content tools tool_manager remaining st).2).toolRounds
        ≤ st.toolRounds + remaining := by
  induction remaining with
  | zero =>
      intro system_content tools tool_manager st
      rcases hsc : st.script with _ | ⟨r, rest⟩
      · rw [rounds_zero_nil system_content tools tool_manager st hsc]
        simp
      · rw [rounds_zero system_content tools tool_manager st r rest hsc]
        simp
  | succ m ih =>
      intro system_content tools tool_manager st
      rcases hsc : st.script with _ | ⟨r, rest⟩
      · rw [rounds_succ_nil system_content tools tool_manager m st hsc]
        simp
      · by_cases hstop : r.stop_reason = "tool_use"
        · cases tool_manager with
          | none =>
              rw [rounds_succ_no_manager system_content tools m st r rest hsc hstop]
              simp
          | some manager =>
              rcases hexec : execute_tools_and_update_messages manager r
                  (advanceState st tools rest) with ⟨b, st2⟩
              have hfields := execute_tools_state_fields manager r (advanceState st tools rest)
              rw [hexec] at hfields
              have hmc : st2.modelCalls = st.modelCalls ++ [toolsTruthy tools] := hfields.1
              have htr : st2.toolRounds = st.toolRounds + 1 := hfields.2.1
              cases b with
              | false =>
                  rw [rounds_succ_tool_use_fail system_content tools manager m st st2 r rest
                    hsc hstop hexec]
                  constructor
                  · simp [hmc]
                  · simp [htr]
              | true =>
                  rw [rounds_succ_tool_use_ok system_content tools manager m st st2 r rest
                    hsc hstop hexec]
                  obtain ⟨h1, h2⟩ := ih system_content tools (some manager) st2
                  constructor
                  · refine h1.trans ?_
                    simp [hmc]; omega
                  · refine h2.trans ?_
                    simp [htr]; omega
        · rw [rounds_succ_terminal system_content tools tool_manager m st r rest hsc hstop]
          simp

/-- C1: for every `max_rounds = N`, every scripted Model Client response
sequence and every tool executor, a single `generate_response` call makes at
most `N + 1` Model Client calls and executes at most `N` tool-execution
rounds before returning.  (Termination is inherent: `generate_response` is a
total function of its inputs.) -/
theorem c1_round_budget_bounds (query : String)
    (conversation_history : Option String) (tools : Option (List String))
    (tool_manager : Option Executor) (max_rounds : Nat)
    (script : List ModelResponse) :
    ((generate_response query conversation_history tools tool_manager
        max_rounds script).2).modelCalls.length ≤ max_rounds + 1 ∧
    ((generate_response query conversation_history tools tool_manager
        max_rounds script).2).toolRounds ≤ max_rounds := by
  have h := rounds_resource_bound max_rounds
    (build_system_content conversation_history max_rounds) tools tool_manager
    { messages := initialize_conversation query conversation_history,
      script := script, modelCalls := [], toolCalls := [], toolRounds := 0 }
  simpa [generate_response] using h

/-- C10: with `max_rounds = 0` the round loop body never runs: exactly one
Model Client call is made, without the tool catalog (`[false]`), the tool
executor is never invoked even if supplied (`toolCalls = []`), and the text
extracted from that single response (`response.content[0].text`) is
returned. -/
theorem c10_zero_rounds_single_call (query : String)
    (conversation_history : Option String) (tools : Option (List String))
    (tool_manager : Option Executor) (r : ModelResponse)
    (rest : List ModelResponse) :
    generate_response query conversation_history tools tool_manager 0 (r :: rest) =
      (extractFirstBlockText r.content,
       { messages := initialize_conversation query conversation_history,
         script := rest, modelCalls := [false], toolCalls := [], toolRounds := 0 }) := by
  have h := rounds_zero (build_system_content conversation_history 0) tools tool_manager
    { messages := initialize_conversation query conversation_history,
      script := r :: rest, modelCalls := [], toolCalls := [], toolRounds := 0 }
    r rest rfl
  simpa [generate_response] using h

/-- C4 counterexample: a tool catalog is supplied but no tool executor, yet
the single in-loop Model Client call is made WITH the catalog offered
(`modelCalls = [true]`), contradicting the claim that every in-loop call is
then made without offering the catalog. -/
theorem c4_counterexample_catalog_offered :
    ((generate_response "q" none (some ["toolA"]) none 2
        [⟨"tool_use", [ContentBlock.toolUse "t1" "search" []]⟩]).2).modelCalls
      = [true] := by rfl

/-- C4 amended: when a nonempty tool catalog is supplied but no tool executor
is supplied, every in-loop Model Client call offers the catalog anyway (the
code passes `tools` to `_make_claude_api_call` regardless of `tool_manager`);
because no executor is present the loop always returns upon its first
response, so exactly one Model Client call is made, with the catalog
offered. -/
theorem c4_amended_catalog_offered_without_executor (query : String)
    (conversation_history : Option String) (t : String) (ts : List String)
    (m : Nat) (script : List ModelResponse) :
    ((generate_response query conversation_history (some (t :: ts)) none (m + 1)
        script).2).modelCalls = [true] := by
  rcases script with _ | ⟨r, rest⟩
  · have h := rounds_succ_nil (build_system_content conversation_history (m + 1))
      (some (t :: ts)) none m
      { messages := initialize_conversation query conversation_history,
        script := [], modelCalls := [], toolCalls := [], toolRounds := 0 } rfl
    simpa [generate_response, toolsTruthy] using congrArg (fun p => p.2.modelCalls) h
  · by_cases hstop : r.stop_reason = "tool_use"
    · have h := rounds_succ_no_manager (build_system_content conversation_history (m + 1))
        (some (t :: ts)) m
        { messages := initialize_conversation query conversation_history,
          script := r :: rest, modelCalls := [], toolCalls := [], toolRounds := 0 }
        r rest rfl hstop
      simpa [generate_response, toolsTruthy] using congrArg (fun p => p.2.modelCalls) h
    · have h := rounds_succ_terminal (build_system_content conversation_history (m + 1))
        (some (t :: ts)) none m
        { messages := initialize_conversation query conversation_history,
          script := r :: rest, modelCalls := [], toolCalls := [], toolRounds := 0 }
        r rest rfl hstop
      simpa [generate_response, toolsTruthy] using congrArg (fun p => p.2.modelCalls) h

/-- C3 counterexample: a terminal (non-tool-use) model turn whose content
blocks contain no text block makes the orchestrator raise (`AttributeError`
from `response.content[0].text`) instead of returning an empty or fallback
string. -/
theorem c3_counterexample_extraction_raises :
    (generate_response "q" none none none 2
        [⟨"end_turn", [ContentBlock.toolUse "t1" "search" []]⟩]).1
      = Except.error OrchError.attributeError := by rfl

/-- C3 amended: final answer text is extracted as `response.content[0].text`:
the first content block's text when that block is a text block; when the turn
has no content blocks the extraction raises `IndexError`, and when the first
block is not a text block it raises `AttributeError`; in a terminal turn the
extraction outcome (text or exception) is exactly what `generate_response`
returns/propagates to the caller. -/
theorem c3_amended_first_block_extraction (s : String) (bs : List ContentBlock)
    (id name : String) (input : List (String × String)) :
    extractFirstBlockText (ContentBlock.text s :: bs) = Except.ok s ∧
    extractFirstBlockText [] = Except.error OrchError.indexError ∧
    extractFirstBlockText (ContentBlock.toolUse id name input :: bs)
      = Except.error OrchError.attributeError ∧
    (∀ (query : String) (conversation_history : Option String)
       (tools : Option (List String)) (tool_manager : Option Executor)
       (r : ModelResponse) (rest : List ModelResponse) (m : Nat),
       r.stop_reason ≠ "tool_use" →
       (generate_response query conversation_history tools tool_manager (m + 1)
           (r :: rest)).1 = extractFirstBlockText r.content) := by
  refine ⟨rfl, rfl, rfl, ?_⟩
  intro query conversation_history tools tool_manager r rest m hstop
  have h := rounds_succ_terminal (build_system_content conversation_history (m + 1))
    tools tool_manager m
    { messages := initialize_conversation query conversation_history,
      script := r :: rest, modelCalls := [], toolCalls := [], toolRounds := 0 }
    r rest rfl hstop
  simpa [generate_response] using congrArg Prod.fst h

/-- Witness for C3's amended theorem at a concrete input: a terminal response
whose first block is a text block yields exactly that text. -/
theorem c3_amended_first_block_extraction_witness :
    (generate_response "q" none none none 1
        [⟨"end_turn", [ContentBlock.text "hi"]⟩]).1 = Except.ok "hi" := by
  have h := (c3_amended_first_block_extraction "hi" [] "i" "n" []).2.2.2
    "q" none none none ⟨"end_turn", [ContentBlock.text "hi"]⟩ [] 0 (by decide)
  simpa using h

/-- Computation of a failed tool round: the assistant turn is appended, the
invocation log is as `processBlocks` left it, and `False` is returned. -/
theorem execute_tools_eq_failed (manager : Executor) (r : ModelResponse)
    (s : LoopState) (log2 : List ToolCallRec)
    (hpb : processBlocks manager r.content [] s.toolCalls
      = (RoundOutcome.failed, log2)) :
    execute_tools_and_update_messages manager r s =
      (false,
       { s with
         messages := s.messages
           ++ [({ role := "assistant", content := MessageContent.blocks r.content } : Message)],
         toolCalls := log2 }) := by
  obtain ⟨msgs, sc, mc, tc, tr⟩ := s
  simp only at hpb
  rw [execute_tools_and_update_messages]
  simp only [hpb]

/-- Computation of a successful tool round: the assistant turn is appended,
then (when results exist) the single user turn carrying them. -/
theorem execute_tools_eq_ok (manager : Executor) (r : ModelResponse)
    (s : LoopState) (results : List ToolResultBlock) (log2 : List ToolCallRec)
    (hpb : processBlocks manager r.content [] s.toolCalls
      = (RoundOutcome.ok results, log2)) :
    execute_tools_and_update_messages manager r s =
      (true,
       if results.isEmpty then
         { s with
           messages := s.messages
             ++ [({ role := "assistant", content := MessageContent.blocks r.content } : Message)],
           toolCalls := log2 }
       else
         { s with
           messages := s.messages
             ++ [({ role := "assistant", content := MessageContent.blocks r.content } : Message)]
             ++ [({ role := "user", content := MessageContent.toolResults results } : Message)],
           toolCalls := log2 }) := by
  obtain ⟨msgs, sc, mc, tc, tr⟩ := s
  simp only at hpb
  rw [execute_tools_and_update_messages]
  simp only [hpb]
  by_cases he : results.isEmpty
  · simp [he]
  · simp [he]

/-- Shape of a successful tool round: every invocation of the assistant
turn's tool-use blocks succeeded; the invocation log is extended by exactly
those invocations, in emission order; the conversation gains the assistant
turn, and — when there was at least one invocation — exactly one user turn
holding the per-invocation results in order. -/
theorem execute_tools_ok_shape (manager : Executor) (r : ModelResponse)
    (s st2 : LoopState)
    (h : execute_tools_and_update_messages manager r s = (true, st2)) :
    allSucceed manager s.toolCalls.length (toolInvocations r.content) = true ∧
    st2.toolCalls = s.toolCalls ++ (toolInvocations r.content).map invRec ∧
    (toolInvocations r.content = [] →
      st2.messages = s.messages
        ++ [({ role := "assistant", content := MessageContent.blocks r.content } : Message)]) ∧
    (toolInvocations r.content ≠ [] →
      st2.messages = s.messages
        ++ [({ role := "assistant", content := MessageContent.blocks r.content } : Message)]
        ++ [({ role := "user",
               content := MessageContent.toolResults
                 (packResults manager s.toolCalls.length (toolInvocations r.content)) } : Message)]) := by
  rcases hpb : processBlocks manager r.content [] s.toolCalls with ⟨out, log2⟩
  cases out with
  | failed =>
      rw [execute_tools_eq_failed manager r s log2 hpb] at h
      exact absurd (congrArg Prod.fst h) (by simp)
  | ok results =>
      have hall := allSucceed_of_processBlocks_ok manager r.content [] s.toolCalls
        results log2 hpb
      have hcomp := processBlocks_ok_of_allSucceed manager r.content [] s.toolCalls hall
      rw [hpb] at hcomp
      have hres : results = packResults manager s.toolCalls.length (toolInvocations r.content) := by
        have h1 := congrArg Prod.fst hcomp
        simpa using h1
      have hlog : log2 = s.toolCalls ++ (toolInvocations r.content).map invRec := by
        have h2 := congrArg Prod.snd hcomp
        simpa using h2
      rw [execute_tools_eq_ok manager r s results log2 hpb] at h
      have hst2 := (congrArg Prod.snd h).symm
      simp only at hst2
      refine ⟨hall, ?_, ?_, ?_⟩
      · rw [hst2]
        by_cases hre : results.isEmpty = true
        · simp [hre, hlog]
        · simp [hre, hlog]
      · intro hinv
        have hre : results.isEmpty = true := by rw [hres, hinv]; rfl
        rw [hst2, if_pos hre]
      · intro hinv
        have hre : results.isEmpty = false := by
          rw [hres]
          rcases hp : packResults manager s.toolCalls.length (toolInvocations r.content)
            with _ | ⟨a, b⟩
          · exfalso
            have hlen := packResults_length manager (toolInvocations r.content) s.toolCalls.length
            rw [hp] at hlen
            exact hinv (List.length_eq_zero.mp hlen.symm)
          · rfl
        rw [hst2, if_neg (by rw [hre]; exact Bool.false_ne_true), hres]

/-- C5: the pre-loop conversation holds exactly 1 turn (the user query), and
every completed (successful) tool round with at least one tool-invocation
block appends exactly one assistant turn carrying the invocation blocks and
exactly one user turn carrying the tool results — so the turn count grows by
exactly 2 per completed round, giving `1 + 2k` after `k` rounds. -/
theorem c5_conversation_turn_growth :
    (∀ (query : String) (conversation_history : Option String),
      (initialize_conversation query conversation_history).length = 1) ∧
    (∀ (manager : Executor) (r : ModelResponse) (s st2 : LoopState),
      toolInvocations r.content ≠ [] →
      execute_tools_and_update_messages manager r s = (true, st2) →
      ∃ rs : List ToolResultBlock, rs ≠ [] ∧
        st2.messages = s.messages
          ++ [({ role := "assistant", content := MessageContent.blocks r.content } : Message)]
          ++ [({ role := "user", content := MessageContent.toolResults rs } : Message)] ∧
        st2.messages.length = s.messages.length + 2) := by
  constructor
  · intro query conversation_history; rfl
  · intro manager r s st2 hinv h
    obtain ⟨hall, hlog, hempty, hfull⟩ := execute_tools_ok_shape manager r s st2 h
    refine ⟨packResults manager s.toolCalls.length (toolInvocations r.content), ?_,
      hfull hinv, ?_⟩
    · intro hp
      have hlen := packResults_length manager (toolInvocations r.content) s.toolCalls.length
      rw [hp] at hlen
      exact hinv (List.length_eq_zero.mp hlen.symm)
    · rw [hfull hinv]; simp

/-- Witness for C5 at a concrete successful round with two tool-use blocks. -/
theorem c5_conversation_turn_growth_witness :
    ∃ rs : List ToolResultBlock, rs ≠ [] ∧
      sampleRoundResult.messages = sampleState.messages
        ++ [({ role := "assistant",
               content := MessageContent.blocks sampleResponse.content } : Message)]
        ++ [({ role := "user", content := MessageContent.toolResults rs } : Message)] ∧
      sampleRoundResult.messages.length = sampleState.messages.length + 2 :=
  c5_conversation_turn_growth.2 sampleExecutor sampleResponse sampleState sampleRoundResult
    (by decide) (by rfl)

/-- C7: within every successful tool round, the tool executor is invoked
exactly once per tool-invocation block of the assistant turn, in emission
order (the invocation log is extended by exactly those `(name, args)` records
in order), and all the round's results are packed, order preserved, into a
single new user-role turn. -/
theorem c7_tools_in_order_single_user_turn :
    ∀ (manager : Executor) (r : ModelResponse) (s st2 : LoopState),
    execute_tools_and_update_messages manager r s = (true, st2) →
    st2.toolCalls = s.toolCalls ++ (toolInvocations r.content).map invRec ∧
    (toolInvocations r.content ≠ [] →
      st2.messages = s.messages
        ++ [({ role := "assistant", content := MessageContent.blocks r.content } : Message)]
        ++ [({ role := "user",
               content := MessageContent.toolResults
                 (packResults manager s.toolCalls.length (toolInvocations r.content)) } : Message)]) := by
  intro manager r s st2 h
  obtain ⟨hall, hlog, hempty, hfull⟩ := execute_tools_ok_shape manager r s st2 h
  exact ⟨hlog, hfull⟩

/-- Witness for C7 at a concrete successful round with two tool-use blocks. -/
theorem c7_tools_in_order_single_user_turn_witness :
    sampleRoundResult.toolCalls = sampleState.toolCalls
      ++ (toolInvocations sampleResponse.content).map invRec ∧
    (toolInvocations sampleResponse.content ≠ [] →
      sampleRoundResult.messages = sampleState.messages
        ++ [({ role := "assistant",
               content := MessageContent.blocks sampleResponse.content } : Message)]
        ++ [({ role := "user",
               content := MessageContent.toolResults
                 (packResults sampleExecutor sampleState.toolCalls.length
                   (toolInvocations sampleResponse.content)) } : Message)]) :=
  c7_tools_in_order_single_user_turn sampleExecutor sampleResponse sampleState
    sampleRoundResult (by rfl)

/-- `_handle_tool_failure` characterized: the space-joined text blocks of the
response, or the fixed fallback message when there are none. -/
theorem handle_tool_failure_eq (r : ModelResponse) :
    handle_tool_failure r =
      (if textBlocks r.content = [] then FALLBACK_MESSAGE
       else String.intercalate " " (textBlocks r.content)) := by
  rw [handle_tool_failure]
  by_cases h : textBlocks r.content = []
  · simp [h]
  · simp [h, List.isEmpty_iff]

/-- C2: in any round whose tool execution fails (the executor raises, or some
tool result's text carries the case-insensitive "not found" marker — the
`j`-th invocation being the first failure), the loop terminates at once with
no further Model Client calls (only the round's initiating call is recorded),
never propagates an exception (the result is an `ok` value), discards the
partially accumulated tool results (the conversation ends with the assistant
turn, no tool-result user turn), and returns the space-joined text blocks of
the last assistant turn, or the fixed apologetic fallback message when that
turn has no text block. -/
theorem c2_tool_failure_graceful_termination (system_content : String)
    (tools : Option (List String)) (manager : Executor) (m : Nat)
    (st : LoopState) (r : ModelResponse) (rest : List ModelResponse) (j : Nat)
    (hscript : st.script = r :: rest)
    (hstop : r.stop_reason = "tool_use")
    (hfail : failsFirstAt manager st.toolCalls.length (toolInvocations r.content) j = true) :
    (execute_sequential_rounds system_content tools (some manager) (m + 1) st).1
        = Except.ok (if textBlocks r.content = [] then FALLBACK_MESSAGE
                     else String.intercalate " " (textBlocks r.content)) ∧
    ((execute_sequential_rounds system_content tools (some manager) (m + 1) st).2).modelCalls
        = st.modelCalls ++ [toolsTruthy tools] ∧
    ((execute_sequential_rounds system_content tools (some manager) (m + 1) st).2).messages
        = st.messages
          ++ [({ role := "assistant", content := MessageContent.blocks r.content } : Message)] ∧
    ((execute_sequential_rounds system_content tools (some manager) (m + 1) st).2).script
        = rest := by
  have hpb := processBlocks_failed_of_failsFirstAt manager r.content j [] st.toolCalls hfail
  have hexec := execute_tools_eq_failed manager r (advanceState st tools rest)
    (st.toolCalls ++ ((toolInvocations r.content).take (j + 1)).map invRec) hpb
  have hrun := rounds_succ_tool_use_fail system_content tools manager m st _ r rest
    hscript hstop hexec
  rw [hrun]
  refine ⟨?_, ?_, ?_, ?_⟩
  · rw [handle_tool_failure_eq]
  · simp [advanceState]
  · simp [advanceState]
  · simp [advanceState]

/-- Witness for C2: a concrete round whose first tool invocation raises. -/
theorem c2_tool_failure_graceful_termination_witness :
    (execute_sequential_rounds "sys" none (some raisingExecutor) 1 c2wState).1
        = Except.ok (if textBlocks c2wResponse.content = [] then FALLBACK_MESSAGE
                     else String.intercalate " " (textBlocks c2wResponse.content)) ∧
    ((execute_sequential_rounds "sys" none (some raisingExecutor) 1 c2wState).2).modelCalls
        = c2wState.modelCalls ++ [toolsTruthy none] ∧
    ((execute_sequential_rounds "sys" none (some raisingExecutor) 1 c2wState).2).messages
        = c2wState.messages
          ++ [({ role := "assistant",
                 content := MessageContent.blocks c2wResponse.content } : Message)] ∧
    ((execute_sequential_rounds "sys" none (some raisingExecutor) 1 c2wState).2).script
        = [] :=
  c2_tool_failure_graceful_termination "sys" none raisingExecutor 0 c2wState
    c2wResponse [] 0 rfl rfl (by decide)

/-- Converse of `failsFirstAt_spec`: when all invocations before index `j`
succeed and the one at `j` fails, `j` is the first failing index. -/
theorem failsFirstAt_of_spec (tool_manager : Executor) :
    ∀ (invs : List Invocation) (base j : Nat) (hj : j < invs.length),
    (∀ i, ∀ hi : i < invs.length, i < j →
      failsRound (tool_manager (base + i) (invs.get ⟨i, hi⟩).name
        (invs.get ⟨i, hi⟩).input) = false) →
    failsRound (tool_manager (base + j) (invs.get ⟨j, hj⟩).name
      (invs.get ⟨j, hj⟩).input) = true →
    failsFirstAt tool_manager base invs j = true := by
  intro invs
  induction invs with
  | nil => intro base j hj _ _; exact absurd hj (by simp)
  | cons inv rest ih =>
    intro base j hj hearlier hfail
    cases j with
    | zero =>
        rw [failsFirstAt]
        exact hfail
    | succ j' =>
        rw [failsFirstAt]
        have h0 := hearlier 0 (Nat.succ_pos _) (Nat.succ_pos _)
        have hj' : j' < rest.length := Nat.lt_of_succ_lt_succ hj
        have hrest : failsFirstAt tool_manager (base + 1) rest j' = true := by
          refine ih (base + 1) j' hj' ?_ ?_
          · intro i hi hij
            have hi1 : i + 1 < (inv :: rest).length := Nat.succ_lt_succ hi
            have := hearlier (i + 1) hi1 (Nat.succ_lt_succ hij)
            rw [show base + (i + 1) = base + 1 + i by omega] at this
            exact this
          · have := hfail
            rw [show base + (j' + 1) = base + 1 + j' by omega] at this
            exact this
        have h0' : failsRound (tool_manager base inv.name inv.input) = false := by
          simpa using h0
        simp [h0', hrest]

/-- C9: when the "not found" marker is detected in the result of the `j`-th
tool-invocation block of a round (`j` past the first block), the executor has
already been invoked for every earlier block and for the `j`-th one (the
invocation log is extended by exactly the first `j + 1` invocations, in
order), and the assistant turn carrying the invocation blocks stays appended
to the conversation: termination discards the accumulated results (no
tool-result user turn) but rolls back neither the earlier invocations nor the
assistant turn. -/
theorem c9_failure_keeps_prior_invocations (system_content : String)
    (tools : Option (List String)) (manager : Executor) (m : Nat)
    (st : LoopState) (r : ModelResponse) (rest : List ModelResponse) (j : Nat)
    (hscript : st.script = r :: rest)
    (hstop : r.stop_reason = "tool_use")
    (hpos : 0 < j)
    (hj : j < (toolInvocations r.content).length)
    (hearlier : ∀ i, ∀ hi : i < (toolInvocations r.content).length, i < j →
      failsRound (manager (st.toolCalls.length + i)
        ((toolInvocations r.content).get ⟨i, hi⟩).name
        ((toolInvocations r.content).get ⟨i, hi⟩).input) = false)
    (hmark : ∃ w, manager (st.toolCalls.length + j)
        ((toolInvocations r.content).get ⟨j, hj⟩).name
        ((toolInvocations r.content).get ⟨j, hj⟩).input
        = ExecOutcome.ret (ToolValue.str w) ∧ hasNotFoundMarker w = true) :
    ((execute_sequential_rounds system_content tools (some manager) (m + 1) st).2).toolCalls
        = st.toolCalls ++ ((toolInvocations r.content).take (j + 1)).map invRec ∧
    ((execute_sequential_rounds system_content tools (some manager) (m + 1) st).2).messages
        = st.messages
          ++ [({ role := "assistant", content := MessageContent.blocks r.content } : Message)] ∧
    (execute_sequential_rounds system_content tools (some manager) (m + 1) st).1
        = Except.ok (handle_tool_failure r) := by
  obtain ⟨w, hw, hmarker⟩ := hmark
  have hfailj : failsRound (manager (st.toolCalls.length + j)
      ((toolInvocations r.content).get ⟨j, hj⟩).name
      ((toolInvocations r.content).get ⟨j, hj⟩).input) = true := by
    rw [hw, failsRound, isNotFoundFailure]
    exact hmarker
  have hfirst := failsFirstAt_of_spec manager (toolInvocations r.content)
    st.toolCalls.length j hj hearlier hfailj
  have hpb := processBlocks_failed_of_failsFirstAt manager r.content j [] st.toolCalls hfirst
  have hexec := execute_tools_eq_failed manager r (advanceState st tools rest)
    (st.toolCalls ++ ((toolInvocations r.content).take (j + 1)).map invRec) hpb
  have hrun := rounds_succ_tool_use_fail system_content tools manager m st _ r rest
    hscript hstop hexec
  rw [hrun]
  refine ⟨?_, ?_, rfl⟩
  · simp [advanceState]
  · simp [advanceState]

/-- Witness for C9: the second invocation of a two-tool round returns a
marker string; the first invocation stays logged, the assistant turn stays. -/
theorem c9_failure_keeps_prior_invocations_witness :
    ((execute_sequential_rounds "sys" none (some c9wExecutor) 1 c9wState).2).toolCalls
        = c9wState.toolCalls
          ++ ((toolInvocations c9wResponse.content).take (1 + 1)).map invRec ∧
    ((execute_sequential_rounds "sys" none (some c9wExecutor) 1 c9wState).2).messages
        = c9wState.messages
          ++ [({ role := "assistant",
                 content := MessageContent.blocks c9wResponse.content } : Message)] ∧
    (execute_sequential_rounds "sys" none (some c9wExecutor) 1 c9wState).1
        = Except.ok (handle_tool_failure c9wResponse) :=
  c9_failure_keeps_prior_invocations "sys" none c9wExecutor 0 c9wState c9wResponse [] 1
    rfl rfl (by decide) (by decide)
    (by
      intro i hi hij
      have h0 : i = 0 := by omega
      subst h0
      rfl)
    ⟨"Course not found", by decide, by decide⟩

/-- C8: the "not found" soft-failure detection applies only to string-typed
tool results.  An executor that returns only non-string values can never fail
a round (the results are packed and the round succeeds), and whenever a round
does fail, the triggering invocation either raised or returned a string
carrying the marker — a non-string result never triggers the tool-failure
termination path. -/
theorem c8_only_string_results_trigger_failure (manager : Executor)
    (r : ModelResponse) (s : LoopState) :
    ((∀ n name input, ∃ t, manager n name input
        = ExecOutcome.ret (ToolValue.other t)) →
      (execute_tools_and_update_messages manager r s).1 = true) ∧
    (∀ st2, execute_tools_and_update_messages manager r s = (false, st2) →
      ∃ j, ∃ hj : j < (toolInvocations r.content).length,
        (∃ msg, manager (s.toolCalls.length + j)
            ((toolInvocations r.content).get ⟨j, hj⟩).name
            ((toolInvocations r.content).get ⟨j, hj⟩).input
            = ExecOutcome.raise msg) ∨
        (∃ w, manager (s.toolCalls.length + j)
            ((toolInvocations r.content).get ⟨j, hj⟩).name
            ((toolInvocations r.content).get ⟨j, hj⟩).input
            = ExecOutcome.ret (ToolValue.str w) ∧ hasNotFoundMarker w = true)) := by
  constructor
  · intro hother
    have hglobal : ∀ n name input, failsRound (manager n name input) = false := by
      intro n name input
      obtain ⟨t, ht⟩ := hother n name input
      rw [ht]; rfl
    have hall := allSucceed_of_global manager hglobal (toolInvocations r.content)
      s.toolCalls.length
    have hpb := processBlocks_ok_of_allSucceed manager r.content [] s.toolCalls hall
    rw [execute_tools_eq_ok manager r s _ _ hpb]
  · intro st2 h
    rcases hpb : processBlocks manager r.content [] s.toolCalls with ⟨out, log2⟩
    cases out with
    | ok results =>
        rw [execute_tools_eq_ok manager r s results log2 hpb] at h
        exact absurd (congrArg Prod.fst h) (by simp)
    | failed =>
        obtain ⟨j, hfirst⟩ := exists_failsFirstAt_of_processBlocks_failed manager
          r.content [] s.toolCalls log2 hpb
        obtain ⟨hj, hfail, hearly⟩ := failsFirstAt_spec manager
          (toolInvocations r.content) s.toolCalls.length j hfirst
        rcases failsRound_cases _ hfail with ⟨msg, hmsg⟩ | ⟨w, hw, hmk⟩
        · exact ⟨j, hj, Or.inl ⟨msg, hmsg⟩⟩
        · exact ⟨j, hj, Or.inr ⟨w, hw, hmk⟩⟩

/-- Witness for C8: an executor returning only non-string values makes every
round succeed, whatever the marker detection would have said. -/
theorem c8_only_string_results_trigger_failure_witness :
    (execute_tools_and_update_messages otherExecutor sampleResponse sampleState).1
      = true :=
  (c8_only_string_results_trigger_failure otherExecutor sampleResponse sampleState).1
    (fun n name input => ⟨7, rfl⟩)

/-- From any state whose script starts with `toolPart.length` tool-use
responses followed by a final response, with an executor that never fails:
each of the `toolPart.length` rounds succeeds, one additional call is made
without the catalog, and the final response's text is returned. -/
theorem rounds_exhaust_budget (manager : Executor)
    (hsucc : ∀ n name input, failsRound (manager n name input) = false) :
    ∀ (toolPart : List ModelResponse) (system_content : String)
      (tools : Option (List String)) (st : LoopState)
      (final : ModelResponse) (extra : List ModelResponse),
    st.script = toolPart ++ final :: extra →
    (∀ r ∈ toolPart, r.stop_reason = "tool_use") →
    ((execute_sequential_rounds system_content tools (some manager)
        toolPart.length st).2).modelCalls
        = st.modelCalls ++ List.replicate toolPart.length (toolsTruthy tools) ++ [false] ∧
    (execute_sequential_rounds system_content tools (some manager)
        toolPart.length st).1
        = extractFirstBlockText final.content := by
  intro toolPart
  induction toolPart with
  | nil =>
      intro system_content tools st final extra hscript htool
      rw [show ([] : List ModelResponse).length = 0 from rfl]
      rw [rounds_zero system_content tools (some manager) st final extra
        (by simpa using hscript)]
      simp
  | cons r tp ih =>
      intro system_content tools st final extra hscript htool
      have hstop : r.stop_reason = "tool_use" := htool r (by simp)
      have hscript' : st.script = r :: (tp ++ final :: extra) := by simpa using hscript
      have hall := allSucceed_of_global manager hsucc (toolInvocations r.content)
        ((advanceState st tools (tp ++ final :: extra)).toolCalls).length
      have hpb := processBlocks_ok_of_allSucceed manager r.content []
        (advanceState st tools (tp ++ final :: extra)).toolCalls hall
      have hexec := execute_tools_eq_ok manager r
        (advanceState st tools (tp ++ final :: extra)) _ _ hpb
      rcases hexec2 : execute_tools_and_update_messages manager r
          (advanceState st tools (tp ++ final :: extra)) with ⟨b, st2⟩
      have hb : b = true := by
        rw [hexec] at hexec2
        exact (congrArg Prod.fst hexec2).symm
      subst hb
      rw [show (r :: tp).length = tp.length + 1 from rfl]
      rw [rounds_succ_tool_use_ok system_content tools manager tp.length st st2 r
        (tp ++ final :: extra) hscript' hstop hexec2]
      have hfields := execute_tools_state_fields manager r
        (advanceState st tools (tp ++ final :: extra))
      rw [hexec2] at hfields
      have hmc : st2.modelCalls = st.modelCalls ++ [toolsTruthy tools] := by
        simpa [advanceState] using hfields.1
      have hsc : st2.script = tp ++ final :: extra := by
        simpa [advanceState] using hfields.2.2
      obtain ⟨ih1, ih2⟩ := ih system_content tools st2 final extra hsc
        (fun r' hr' => htool r' (by simp [hr']))
      refine ⟨?_, ih2⟩
      rw [ih1, hmc]
      simp [List.replicate_succ]

/-- C6: when the Model Client requests tool invocations in `N` consecutive
successful rounds (`N = toolPart.length`, executor never failing), exactly
one additional — the `N + 1`-th — Model Client call is made, without the tool
catalog in its parameters (`modelCalls` ends in `false` after `N` in-loop
flags), and the text extracted from that final response is returned to the
caller. -/
theorem c6_final_call_without_catalog (query : String)
    (conversation_history : Option String) (tools : Option (List String))
    (manager : Executor) (toolPart : List ModelResponse) (final : ModelResponse)
    (extra : List ModelResponse)
    (htool : ∀ r ∈ toolPart, r.stop_reason = "tool_use")
    (hsucc : ∀ n name input, failsRound (manager n name input) = false) :
    ((generate_response query conversation_history tools (some manager)
        toolPart.length (toolPart ++ final :: extra)).2).modelCalls
        = List.replicate toolPart.length (toolsTruthy tools) ++ [false] ∧
    (generate_response query conversation_history tools (some manager)
        toolPart.length (toolPart ++ final :: extra)).1
        = extractFirstBlockText final.content := by
  have h := rounds_exhaust_budget manager hsucc toolPart
    (build_system_content conversation_history toolPart.length) tools
    { messages := initialize_conversation query conversation_history,
      script := toolPart ++ final :: extra, modelCalls := [], toolCalls := [],
      toolRounds := 0 } final extra rfl htool
  simpa [generate_response] using h

/-- Witness for C6: two consecutive tool-use rounds under a 2-round budget,
then a final catalog-free call returning `"Final"`. -/
theorem c6_final_call_without_catalog_witness :
    ((generate_response "q" none (some ["toolA"]) (some sampleExecutor)
        ([c6wTool, c6wTool] : List ModelResponse).length
        ([c6wTool, c6wTool] ++ c6wFinal :: [])).2).modelCalls
        = List.replicate ([c6wTool, c6wTool] : List ModelResponse).length
            (toolsTruthy (some ["toolA"])) ++ [false] ∧
    (generate_response "q" none (some ["toolA"]) (some sampleExecutor)
        ([c6wTool, c6wTool] : List ModelResponse).length
        ([c6wTool, c6wTool] ++ c6wFinal :: [])).1
        = extractFirstBlockText c6wFinal.content :=
  c6_final_call_without_catalog "q" none (some ["toolA"]) sampleExecutor
    [c6wTool, c6wTool] c6wFinal [] (by decide) (fun n name input => rfl)
